import Mathlib

/-!
Verification of the sehttpd connection engine (HTTP parser, dispatch,
response header builder, ring-buffer driver, CLI parsing).

Shallow embedding conventions:
* Machine integers are modeled by `Nat`/`Int`; `size_t` arithmetic that cannot
  underflow in the verified runs is `Nat` subtraction.
* The ring buffer is modeled by the byte stream: position `pi` of the stream
  holds byte `buf pi`; in C this byte is stored at `buf[pi % MAX_BUF]`, and
  pointers into the buffer are modeled by stream positions.  The
  identification is exact while a request does not wrap the ring (the first
  request on a connection never wraps, since `MAX_BUF` bytes never fit).
* `EAGAIN` is the Linux errno value 11 (the code targets epoll, hence Linux).
  Note it coincides numerically with `HTTP_PARSER_INVALID_REQUEST`.
* The build defines `NDEBUG` (see the Makefile), so `assert` is a no-op and is
  not modeled.
-/

namespace Sehttpd

/-- `MAX_BUF` from http.h. -/
def MAX_BUF : Nat := 8124

/-- Linux errno value for EAGAIN. -/
def EAGAIN : Int := 11

/-- `enum http_parser_retcode` from http.h. -/
def HTTP_PARSER_INVALID_METHOD : Int := 10

/-- `enum http_parser_retcode` from http.h. -/
def HTTP_PARSER_INVALID_REQUEST : Int := 11

/-- `enum http_parser_retcode` from http.h. -/
def HTTP_PARSER_INVALID_HEADER : Int := 12

/-- `enum http_method` from http.h. -/
def HTTP_UNKNOWN : Int := 1

/-- `enum http_method` from http.h. -/
def HTTP_GET : Int := 2

/-- `enum http_method` from http.h. -/
def HTTP_HEAD : Int := 4

/-- `enum http_method` from http.h. -/
def HTTP_POST : Int := 8

/-- `TIMEOUT_DEFAULT` from timer.h (milliseconds). -/
def TIMEOUT_DEFAULT : Nat := 500

/-- `SHORTLINE` from http.c. -/
def SHORTLINE : Int := 512

/-- The CR byte. -/
def CRc : Char := '\r'

/-- The LF byte. -/
def LFc : Char := '\n'

/-- `http_header_t` from http.h: one parsed header, stored as stream
positions of the key and value slices. -/
structure http_header_t where
  key_start : Nat
  key_end : Nat
  value_start : Nat
  value_end : Nat
deriving DecidableEq, Repr

/-- The fields of `http_request_t` that the two parser FSM loops mutate while
scanning bytes.  They are grouped here only for organization; together with
`pos`, `last` and `state` below they form the C struct `http_request_t`.
`request_end` is a nullable pointer in C, hence `Option`; it is set to `p - 1`
(an `Int`, one before the current stream position).  The `method` field is not
initialized by `init_http_request`, so the embedding keeps whatever value the
record carries until the parser assigns it. -/
structure Core where
  request_start : Nat := 0
  method : Int := 0
  uri_start : Nat := 0
  uri_end : Nat := 0
  http_major : Nat := 0
  http_minor : Nat := 0
  request_end : Option Int := none
  headers : List http_header_t := []
  cur_header_key_start : Nat := 0
  cur_header_key_end : Nat := 0
  cur_header_value_start : Nat := 0
  cur_header_value_end : Nat := 0
deriving DecidableEq, Repr

/-- `http_request_t` from http.h (the parse-relevant fields; `fd`, `epfd`,
`root` and the timer pointer play no role in the verified properties). -/
structure http_request_t where
  pos : Nat := 0
  last : Nat := 0
  state : Nat := 0
  core : Core := {}
deriving DecidableEq, Repr

/-- `cst_strcmp` from http_parser.c: `*(uint32_t *)m == (c3<<24|c2<<16|c1<<8|c0)`
on a little-endian machine, i.e. equality of the four bytes at `m`. -/
def cst_strcmp (buf : Nat → Char) (m : Nat) (c0 c1 c2 c3 : Char) : Bool :=
  buf m == c0 && buf (m + 1) == c1 && buf (m + 2) == c2 && buf (m + 3) == c3

/-- Result of processing one byte inside a parser loop: continue with a new
FSM state, return an error code (without saving `pos`/`state`), or jump to
the `done` label. -/
inductive LStep where
  | cont (c : Core) (st : Nat)
  | stop (code : Int) (c : Core)
  | fin (c : Core)

/-- One iteration of the `switch (state)` in `http_parse_request_line`
(http_parser.c).  State numbering follows the C enum:
0 start, 1 method, 2 spaces_before_uri, 3 after_slash_in_uri, 4 http,
5 http_H, 6 http_HT, 7 http_HTT, 8 http_HTTP, 9 first_major_digit,
10 major_digit, 11 first_minor_digit, 12 minor_digit, 13 spaces_after_digit,
14 almost_done.  A state value outside the enum hits no `case` label and the
loop just consumes the byte, as in C. -/
def lineStep (buf : Nat → Char) (c : Core) (st : Nat) (pi : Nat) : LStep :=
  let ch := buf pi
  match st with
  | 0 =>
    let c := { c with request_start := pi }
    if ch = CRc ∨ ch = LFc then .cont c 0
    else if (ch < 'A' ∨ 'Z' < ch) ∧ ch ≠ '_' then .stop HTTP_PARSER_INVALID_METHOD c
    else .cont c 1
  | 1 =>
    if ch = ' ' then
      let m := c.request_start
      let c :=
        if pi - m = 3 then
          (if cst_strcmp buf m 'G' 'E' 'T' ' ' then { c with method := HTTP_GET } else c)
        else if pi - m = 4 then
          (if cst_strcmp buf m 'P' 'O' 'S' 'T' then { c with method := HTTP_POST }
           else if cst_strcmp buf m 'H' 'E' 'A' 'D' then { c with method := HTTP_HEAD }
           else c)
        else { c with method := HTTP_UNKNOWN }
      .cont c 2
    else if (ch < 'A' ∨ 'Z' < ch) ∧ ch ≠ '_' then .stop HTTP_PARSER_INVALID_METHOD c
    else .cont c 1
  | 2 =>
    if ch = '/' then .cont { c with uri_start := pi } 3
    else if ch = ' ' then .cont c 2
    else .stop HTTP_PARSER_INVALID_REQUEST c
  | 3 =>
    if ch = ' ' then .cont { c with uri_end := pi } 4 else .cont c 3
  | 4 =>
    if ch = ' ' then .cont c 4
    else if ch = 'H' then .cont c 5
    else .stop HTTP_PARSER_INVALID_REQUEST c
  | 5 => if ch = 'T' then .cont c 6 else .stop HTTP_PARSER_INVALID_REQUEST c
  | 6 => if ch = 'T' then .cont c 7 else .stop HTTP_PARSER_INVALID_REQUEST c
  | 7 => if ch = 'P' then .cont c 8 else .stop HTTP_PARSER_INVALID_REQUEST c
  | 8 => if ch = '/' then .cont c 9 else .stop HTTP_PARSER_INVALID_REQUEST c
  | 9 =>
    if ch < '1' ∨ '9' < ch then .stop HTTP_PARSER_INVALID_REQUEST c
    else .cont { c with http_major := ch.toNat - '0'.toNat } 10
  | 10 =>
    if ch = '.' then .cont c 11
    else if ch < '0' ∨ '9' < ch then .stop HTTP_PARSER_INVALID_REQUEST c
    else .cont { c with http_major := c.http_major * 10 + (ch.toNat - '0'.toNat) } 10
  | 11 =>
    if ch < '0' ∨ '9' < ch then .stop HTTP_PARSER_INVALID_REQUEST c
    else .cont { c with http_minor := ch.toNat - '0'.toNat } 12
  | 12 =>
    if ch = CRc then .cont c 14
    else if ch = LFc then .fin c
    else if ch = ' ' then .cont c 13
    else if ch < '0' ∨ '9' < ch then .stop HTTP_PARSER_INVALID_REQUEST c
    else .cont { c with http_minor := c.http_minor * 10 + (ch.toNat - '0'.toNat) } 12
  | 13 =>
    if ch = ' ' then .cont c 13
    else if ch = CRc then .cont c 14
    else if ch = LFc then .fin c
    else .stop HTTP_PARSER_INVALID_REQUEST c
  | 14 =>
    let c := { c with request_end := some ((pi : Int) - 1) }
    if ch = LFc then .fin c else .stop HTTP_PARSER_INVALID_REQUEST c
  | _ => .cont c st

/-- Outcome of a parser loop: `done` (the `goto done` label, at the position
of the final LF), `eagain` (data exhausted; FSM state and position to save),
or `err` (early return with an error code). -/
inductive ParseOut where
  | done (c : Core) (pi : Nat)
  | eagain (c : Core) (st : Nat) (pi : Nat)
  | err (code : Int) (c : Core)

/-- The shared shape of the two parsers' scanning loops
(`for (pi = r->pos; pi < r->last; pi++)`), with the remaining iteration count
passed as explicit fuel (`fuel = last - pi`) and the per-byte `switch` passed
as `step`. -/
def parseAux (step : Core → Nat → Nat → LStep) : Nat → Core → Nat → Nat → ParseOut
  | 0, c, st, pi => .eagain c st pi
  | fuel + 1, c, st, pi =>
    match step c st pi with
    | .cont c2 st2 => parseAux step fuel c2 st2 (pi + 1)
    | .stop code c2 => .err code c2
    | .fin c2 => .done c2 pi

/-- The shared exit paths of the two parsers.  On `done` (`goto done`): `pos`
moves one past the LF, `state` resets to start, and the parser-specific
fixup `f` runs (`request_end` defaulting for the request line, nothing for
the header parser).  On exhaustion: `pos` and `state` are saved and `EAGAIN`
returned.  On error: the code is returned and `pos`/`state` keep their entry
values (field mutations made before the error persist). -/
def mkAssemble (f : Core → Nat → Core) (r : http_request_t) :
    ParseOut → Int × http_request_t
  | .done c pi => (0, { r with pos := pi + 1, state := 0, core := f c pi })
  | .eagain c st pi => (EAGAIN, { r with pos := pi, state := st, core := c })
  | .err code c => (code, { r with core := c })

/-- A parser is its loop followed by its exit paths. -/
def runParser (step : Core → Nat → Nat → LStep) (f : Core → Nat → Core)
    (r : http_request_t) : Int × http_request_t :=
  mkAssemble f r (parseAux step (r.last - r.pos) r.core r.state r.pos)

/-- The `done` label of `http_parse_request_line`:
`if (!r->request_end) r->request_end = p;`. -/
def lineFinish (c : Core) (pi : Nat) : Core :=
  if c.request_end = none then { c with request_end := some (pi : Int) } else c

/-- `http_parse_request_line` from http_parser.c. -/
def http_parse_request_line (buf : Nat → Char) (r : http_request_t) :
    Int × http_request_t :=
  runParser (lineStep buf) lineFinish r

/-- One iteration of the `switch (state)` in `http_parse_request_body`
(http_parser.c).  State numbering follows the C enum: 0 start, 1 key,
2 spaces_before_colon, 3 spaces_after_colon, 4 value, 5 cr, 6 crlf,
7 crlfcr.  On LF in state `cr` the completed header is added at the front of
the list (`list_add` inserts after the head). -/
def bodyStep (buf : Nat → Char) (c : Core) (st : Nat) (pi : Nat) : LStep :=
  let ch := buf pi
  match st with
  | 0 =>
    if ch = CRc ∨ ch = LFc then .cont c 0
    else .cont { c with cur_header_key_start := pi } 1
  | 1 =>
    if ch = ' ' then .cont { c with cur_header_key_end := pi } 2
    else if ch = ':' then .cont { c with cur_header_key_end := pi } 3
    else .cont c 1
  | 2 =>
    if ch = ' ' then .cont c 2
    else if ch = ':' then .cont c 3
    else .stop HTTP_PARSER_INVALID_HEADER c
  | 3 =>
    if ch = ' ' then .cont c 3
    else .cont { c with cur_header_value_start := pi } 4
  | 4 =>
    if ch = CRc then .cont { c with cur_header_value_end := pi } 5
    else if ch = LFc then .cont { c with cur_header_value_end := pi } 6
    else .cont c 4
  | 5 =>
    if ch = LFc then
      .cont { c with headers :=
        { key_start := c.cur_header_key_start
          key_end := c.cur_header_key_end
          value_start := c.cur_header_value_start
          value_end := c.cur_header_value_end } :: c.headers } 6
    else .stop HTTP_PARSER_INVALID_HEADER c
  | 6 =>
    if ch = CRc then .cont c 7
    else .cont { c with cur_header_key_start := pi } 1
  | 7 => if ch = LFc then .fin c else .stop HTTP_PARSER_INVALID_HEADER c
  | _ => .cont c st

/-- `http_parse_request_body` from http_parser.c (the `assert(state == 0)` is
compiled out by `NDEBUG`; the `done` label only advances `pos` and resets
`state`, with no extra fixup). -/
def http_parse_request_body (buf : Nat → Char) (r : http_request_t) :
    Int × http_request_t :=
  runParser (bodyStep buf) (fun c _ => c) r

/-- Chunk-by-chunk driving of a parser, as `do_request` does after each
`read`: grow `last` by the chunk size, call the parser, and resume exactly
when the call ran out of data (it then returned `EAGAIN` having saved
`pos = last`; an error return leaves `pos` strictly below `last`).  With an
empty chunk list the parser is called on the data already present. -/
def feedChunks (p : http_request_t → Int × http_request_t) :
    http_request_t → List Nat → Int × http_request_t
  | r, [] => p r
  | r, n :: ns =>
    let pr := p { r with last := r.last + n }
    if pr.1 ≠ 0 ∧ pr.2.pos = pr.2.last then feedChunks p pr.2 ns else pr

/-- The contiguous writable span computed by `do_request` (http.c):
`MIN(MAX_BUF - (r->last - r->pos) - 1, MAX_BUF - r->last % MAX_BUF)`. -/
def remain_size (pos last : Nat) : Nat :=
  min (MAX_BUF - (last - pos) - 1) (MAX_BUF - last % MAX_BUF)

/-- `http_out_t` from http.h (`fd` and `mtime` are irrelevant to the verified
properties and omitted). -/
structure http_out_t where
  keep_alive : Bool
  modified : Bool
  status : Int
deriving DecidableEq, Repr

/-- `tolower(3)` on an ASCII byte (same computation as core `Char.toLower`). -/
def tolowerC (c : Char) : Char :=
  if 65 ≤ c.toNat ∧ c.toNat ≤ 90 then Char.ofNat (c.toNat + 32) else c

/-- `strncasecmp(a, b, n) == 0`, where `a` is a NUL-terminated C string
(reading past its end yields the terminator) and `b` points at a buffer slice
of at least `n` bytes (`n` is always the slice length at the call sites).
The comparison stops at the first difference, at a NUL that both strings
share, or after `n` bytes. -/
def strncaseEq (a b : List Char) (n : Nat) : Bool :=
  match n with
  | 0 => true
  | n + 1 =>
    let x := tolowerC (a.headD '\x00')
    let y := tolowerC (b.headD '\x00')
    if x ≠ y then false
    else if x = '\x00' then true
    else strncaseEq a.tail b.tail n

/-- `http_process_connection` from http_request.c:
`if (!strncasecmp("keep-alive", data, len)) out->keep_alive = true;`.
`data` is the header-value slice, `len` its length. -/
def http_process_connection (out : http_out_t) (data : List Char) : http_out_t :=
  if strncaseEq "keep-alive".toList data data.length then
    { out with keep_alive := true }
  else out

/-- `strncmp(a, b, n) == 0` where `a` points at a buffer slice of at least
`n` bytes and `b` is a NUL-terminated C string (reading past its end yields
the terminator).  Stops at the first difference, at a shared NUL, or after
`n` bytes. -/
def strncmpEq (a b : List Char) (n : Nat) : Bool :=
  match n with
  | 0 => true
  | n + 1 =>
    let x := a.headD '\x00'
    let y := b.headD '\x00'
    if x ≠ y then false
    else if x = '\x00' then true
    else strncmpEq a.tail b.tail n

/-- The names of the `http_headers_in` dispatch table from http_request.c, in
order, without the empty-string sentinel that terminates the scan.  The
associated handlers are `http_process_ignore`, `http_process_connection`, and
`http_process_if_modified_since`. -/
def http_headers_in : List (List Char) :=
  ["Host".toList, "Connection".toList, "If-Modified-Since".toList]

/-- The handler-lookup loop in `http_handle_header`: scan the table while
`strlen(name) > 0`, and take the first entry with
`strncmp(key_start, name, key_end - key_start) == 0`. -/
def findHandler (key : List Char) : List (List Char) → Option (List Char)
  | [] => none
  | name :: rest =>
    if name = [] then none
    else if strncmpEq key name key.length then some name
    else findHandler key rest

/-- `http_handle_header` from http_request.c, modeled at the dispatch level:
the input is the list of parsed `(key, value)` slices (in list order, i.e.
most recently parsed first), and the output is the sequence of handler
invocations performed, as `(table name, value passed)` pairs.  A header whose
key matches no table entry invokes nothing; each header is removed from the
list after processing (the list always ends empty). -/
def http_handle_header : List (List Char × List Char) → List (List Char × List Char)
  | [] => []
  | (k, v) :: rest =>
    (match findHandler k http_headers_in with
     | some name => [(name, v)]
     | none => []) ++ http_handle_header rest

/-- The `mime` table from http.c. -/
def mime : List (List Char × List Char) :=
  [(".html".toList, "text/html".toList),
   (".xml".toList, "text/xml".toList),
   (".xhtml".toList, "application/xhtml+xml".toList),
   (".txt".toList, "text/plain".toList),
   (".pdf".toList, "application/pdf".toList),
   (".png".toList, "image/png".toList),
   (".gif".toList, "image/gif".toList),
   (".jpg".toList, "image/jpeg".toList),
   (".css".toList, "text/css".toList)]

/-- The scan inside `get_file_type`: first exact match wins, the sentinel
value `text/plain` is returned when the scan falls off the table. -/
def mimeLookup (t : List Char) : List (List Char × List Char) → List Char
  | [] => "text/plain".toList
  | (ty, v) :: rest => if t = ty then v else mimeLookup t rest

/-- `get_file_type` from http.c (`NULL` argument yields `text/plain`). -/
def get_file_type (t : Option (List Char)) : List Char :=
  match t with
  | none => "text/plain".toList
  | some t => mimeLookup t mime

/-- `strrchr(s, c)`: the suffix of `s` starting at the last occurrence of
`c`, or `NULL` (`none`) when absent. -/
def strrchr (s : List Char) (c : Char) : Option (List Char) :=
  match s with
  | [] => none
  | x :: xs =>
    match strrchr xs c with
    | some r => some r
    | none => if x = c then some (x :: xs) else none

/-- `get_msg_from_status` from http.c. -/
def get_msg_from_status (status : Int) : List Char :=
  if status = 200 then "OK".toList
  else if status = 304 then "Not Modified".toList
  else if status = 404 then "Not Found".toList
  else "Unknown".toList

/-- Decimal digits of a natural number, as printf's `%d`/`%zu` renders it. -/
def natDigits (n : Nat) : List Char :=
  if _h : n < 10 then [Char.ofNat ('0'.toNat + n)]
  else natDigits (n / 10) ++ [Char.ofNat ('0'.toNat + n % 10)]
decreasing_by exact Nat.div_lt_self (by omega) (by omega)

/-- printf's `%d` on an `int`. -/
def intToChars (i : Int) : List Char :=
  if i < 0 then '-' :: natDigits i.natAbs else natDigits i.toNat

/-- The `Connection: keep-alive` line emitted by `serve_static`. -/
def connLine : List Char := "Connection: keep-alive\r\n".toList

/-- The `Keep-Alive: timeout=%d` line emitted by `serve_static`, with
`TIMEOUT_DEFAULT` substituted. -/
def kaLine : List Char :=
  "Keep-Alive: timeout=".toList ++ natDigits TIMEOUT_DEFAULT ++ "\r\n".toList

/-- The header block assembled by `serve_static` (http.c) through its
sequence of `sprintf(header + offset, ...)` appends.  `lm` stands for the
`strftime`-formatted `Last-Modified` date string (format
`%a, %d %b %Y %H:%M:%S GMT`), which depends on `out->mtime` and the local
time zone and is therefore taken as a parameter. -/
def serve_static_header (status : Int) (keep_alive modified : Bool)
    (filename : List Char) (filesize : Nat) (lm : List Char) : List Char :=
  "HTTP/1.1 ".toList ++ intToChars status ++ " ".toList ++
    get_msg_from_status status ++ "\r\n".toList ++
  (if keep_alive then connLine ++ kaLine else []) ++
  (if modified then
    "Content-type: ".toList ++ get_file_type (strrchr filename '.') ++ "\r\n".toList ++
    "Content-length: ".toList ++ natDigits filesize ++ "\r\n".toList ++
    "Last-Modified: ".toList ++ lm ++ "\r\n".toList
   else []) ++
  "Server: seHTTPd\r\n\r\n".toList

/-- `p` occurs contiguously inside `l` (the header block "contains the
line"). -/
def seg_in (p l : List Char) : Prop := ∃ s t, l = s ++ p ++ t

/-- `strchr(s, c)` as the index of the first occurrence, if any. -/
def strchrIdx (s : List Char) (c : Char) : Option Nat :=
  match s with
  | [] => none
  | x :: xs =>
    if x = c then some 0
    else match strchrIdx xs c with
         | some i => some (i + 1)
         | none => none

/-- Index one past the last `/` of `s`, or `0` when there is none (in the C
code `strrchr(filename, '/')` is never NULL at this point: the web root or
the URI contains a slash). -/
def afterLastSlash (s : List Char) : Nat :=
  match s with
  | [] => 0
  | x :: xs =>
    let r := afterLastSlash xs
    if r = 0 ∧ x = '/' then 1 else if r = 0 then 0 else r + 1

/-- `parse_uri` from http.c, returning `some filename` or `none` when the
`uri_length > SHORTLINE >> 1` guard rejects the URI (the C function then
returns without writing `filename`).  `uri` is the URI slice
(`uri_length` bytes, NUL-free); writing the terminator into the buffer is
modeled by truncation.  Steps: locate `?` to bound `file_length`; length
guard; `strcpy`/`strncat` the web root and the path; append `/` when the
last component has no dot and the name does not end in `/`; append
`index.html` after a trailing `/`. -/
def parse_uri (webroot uri : List Char) (uri_length : Int) : Option (List Char) :=
  let uriT := uri.take uri_length.toNat
  let file_length : Int :=
    match strchrIdx uriT '?' with
    | some q => (q : Int)
    | none => uri_length
  if uri_length > (SHORTLINE >>> 1) then none
  else
    let filename := webroot ++ uriT.take file_length.toNat
    let last_comp := filename.drop (afterLastSlash filename)
    let last_dot := strrchr last_comp '.'
    let filename :=
      if last_dot = none ∧ filename.getLastD ' ' ≠ '/' then filename ++ ['/']
      else filename
    let filename :=
      if filename.getLastD ' ' = '/' then filename ++ "index.html".toList
      else filename
    some filename

/-- `struct runtime_conf` from mainloop.c. -/
structure runtime_conf where
  port : Int
  web_root : List Char
deriving DecidableEq, Repr

/-- `DEFAULT_PORT` from mainloop.c. -/
def DEFAULT_PORT : Int := 8081

/-- `DEFAULT_WEBROOT` from mainloop.c. -/
def DEFAULT_WEBROOT : List Char := "./www".toList

/-- `strtol(s, &endptr, 10)` restricted to what `cmd_get_port` observes: the
parsed value and the number of consumed characters (overflow clamping to
`LONG_MAX`/`LONG_MIN` is not modeled; port strings are short). -/
def strtol10 (s : List Char) : Int × Nat :=
  let sign : Int := if s.headD ' ' = '-' then -1 else 1
  let body := if s.headD ' ' = '-' ∨ s.headD ' ' = '+' then s.tail else s
  let digits := body.takeWhile (fun c => '0' ≤ c ∧ c ≤ '9')
  if digits = [] then (0, 0)
  else (sign * (digits.foldl (fun a c => a * 10 + ((c.toNat : Int) - ('0'.toNat : Int))) 0),
        (if body.length = s.length then 0 else 1) + digits.length)

/-- `cmd_get_port` from mainloop.c: parse the port with `strtol`; exit
(`none`) when no digits were found; out-of-range values fall back to
`DEFAULT_PORT`. -/
def cmd_get_port (arg : List Char) : Option Int :=
  let (ret, consumed) := strtol10 arg
  if consumed = 0 then none
  else if ret ≤ 0 ∨ ret > 65535 then some DEFAULT_PORT
  else some ret

/-- `parse_cmd` from mainloop.c, over the stream of options produced by
`getopt(argc, argv, "p:r:")`: each element is the option character getopt
returned (`'p'` or `'r'` with its argument, or `'?'` for an illegal option).
The C switch handles `'p'`, `'w'` (unreachable: getopt never returns `'w'`),
and `'?'` (exit, modeled as `none`); everything else — including `'r'` —
falls to the `default` branch, which only prints and leaves the
configuration unchanged. -/
def parse_cmd (opts : List (Char × List Char)) : Option runtime_conf :=
  let rec go (cfg : runtime_conf) : List (Char × List Char) → Option runtime_conf
    | [] => some cfg
    | (c, arg) :: rest =>
      match c with
      | 'p' =>
        match cmd_get_port arg with
        | none => none
        | some port => go { cfg with port := port } rest
      | 'w' => go { cfg with web_root := arg } rest
      | '?' => none
      | _ => go cfg rest
  go { port := DEFAULT_PORT, web_root := DEFAULT_WEBROOT } opts

/-! ## Theorems -/

/-- C9: calling either parser with no new bytes available (`pos = last`)
returns `EAGAIN` and leaves the request record — `pos`, `state`, and every
parsed-slice field — unchanged; hence a second call returns the same
unchanged record, i.e. repeated calls are idempotent. -/
theorem claim_C9 (buf : Nat → Char) (r : http_request_t) (h : r.pos = r.last) :
    http_parse_request_line buf r = (EAGAIN, r) ∧
    http_parse_request_body buf r = (EAGAIN, r) ∧
    http_parse_request_line buf (http_parse_request_line buf r).2 = (EAGAIN, r) ∧
    http_parse_request_body buf (http_parse_request_body buf r).2 = (EAGAIN, r) := by
  have hf : r.last - r.pos = 0 := by omega
  have h1 : http_parse_request_line buf r = (EAGAIN, r) := by
    unfold http_parse_request_line runParser
    rw [hf]
    rfl
  have h2 : http_parse_request_body buf r = (EAGAIN, r) := by
    unfold http_parse_request_body runParser
    rw [hf]
    rfl
  exact ⟨h1, h2, by rw [h1]; exact h1, by rw [h2]; exact h2⟩

/-- Witness for C9 at a concrete connection state. -/
theorem claim_C9_witness :
    http_parse_request_line (fun _ => ' ') { pos := 5, last := 5 } =
      (EAGAIN, { pos := 5, last := 5 }) ∧
    http_parse_request_body (fun _ => ' ') { pos := 5, last := 5 } =
      (EAGAIN, { pos := 5, last := 5 }) :=
  ⟨(claim_C9 (fun _ => ' ') { pos := 5, last := 5 } rfl).1,
   (claim_C9 (fun _ => ' ') { pos := 5, last := 5 } rfl).2.1⟩

/-- C3: one iteration of the `do_request` read loop preserves the ring-buffer
invariant: if `pos ≤ last` and `last - pos < MAX_BUF` hold before a read of
`n ≤ remain_size pos last` bytes, they hold again after `last` advances by
`n` (one slot always kept free by the `- 1` in `remain_size`). -/
theorem claim_C3 (pos last n : Nat) (h1 : pos ≤ last) (h2 : last - pos < MAX_BUF)
    (h3 : n ≤ remain_size pos last) :
    pos ≤ last + n ∧ (last + n) - pos < MAX_BUF := by
  have h4 : n ≤ MAX_BUF - (last - pos) - 1 :=
    le_trans h3 (Nat.min_le_left _ _)
  unfold MAX_BUF at h2 h4 ⊢
  omega

/-- Witness for C3 at a concrete buffer state. -/
theorem claim_C3_witness : (0 : Nat) ≤ 0 + 8123 ∧ (0 + 8123) - 0 < MAX_BUF :=
  claim_C3 0 0 8123 (by decide) (by decide) (by decide)

/-- C8: `parse_cmd` on the getopt stream produced by `-r /var/www` leaves
`web_root` at the default `"./www"` instead of `/var/www`: getopt's option
string `"p:r:"` accepts `-r`, but the switch only has a (dead) `case 'w'`,
so `'r'` falls into the default branch.  This evaluates the code at the
failing input of the code_bug verdict. -/
theorem claim_C8 :
    parse_cmd [('r', "/var/www".toList)] =
      some { port := DEFAULT_PORT, web_root := DEFAULT_WEBROOT } ∧
    DEFAULT_WEBROOT ≠ "/var/www".toList := by decide

/-- C5 amended: `parse_uri` rejects URIs strictly longer than 256 bytes;
a 257-byte URI is rejected while URIs of exactly 256 and 255 bytes are
accepted (the guard is `uri_length > SHORTLINE >> 1`, i.e. `> 256`). -/
theorem claim_C5 :
    (∀ (webroot uri : List Char) (len : Int),
        256 < len → parse_uri webroot uri len = none) ∧
    (parse_uri DEFAULT_WEBROOT ('/' :: List.replicate 256 'a') 257) = none ∧
    (parse_uri DEFAULT_WEBROOT ('/' :: List.replicate 255 'a') 256).isSome = true ∧
    (parse_uri DEFAULT_WEBROOT ('/' :: List.replicate 254 'a') 255).isSome = true := by
  have h256 : ((SHORTLINE >>> 1 : Int)) = 256 := by decide
  refine ⟨fun w u len h => ?_, by decide, by decide, by decide⟩
  simp only [parse_uri]
  rw [if_pos (by rw [h256]; exact h)]

/-- Witness for C5 at a concrete over-long URI. -/
theorem claim_C5_witness : parse_uri DEFAULT_WEBROOT [] 300 = none :=
  claim_C5.1 DEFAULT_WEBROOT [] 300 (by decide)

/-- Counterexample to C5 as stated: a URI of exactly 256 bytes is accepted
by `parse_uri`, not rejected (the guard tests `> 256`, not `≥ 256`). -/
theorem claim_C5_cex :
    (parse_uri DEFAULT_WEBROOT ('/' :: List.replicate 255 'a') 256).isSome = true := by
  decide

/-- The byte stream `GET /a HX` used by the C1 counterexample (`X` makes the
request line invalid in state `http_H`). -/
def cexBuf1 : Nat → Char := fun i => "GET /a HX".toList.getD i ' '

/-- Counterexample to C1 as stated: chunked feeding (`GET /a H` then `X`)
and the single-shot parse of `GET /a HX` return the same error code, but the
terminal offsets differ: the chunked run's `pos` is 8 (saved by the EAGAIN
after the first chunk), the single-shot run's `pos` is 0 (an erroring call
does not save `pos`). -/
theorem claim_C1_cex :
    (feedChunks (http_parse_request_line cexBuf1) {} [8, 1]).1 =
      (http_parse_request_line cexBuf1 { last := 9 }).1 ∧
    (feedChunks (http_parse_request_line cexBuf1) {} [8, 1]).2.pos = 8 ∧
    (http_parse_request_line cexBuf1 { last := 9 }).2.pos = 0 := by decide

/-- The byte stream `PUT / HTTP/1.0` + LF used by the C2 counterexample. -/
def cexBuf2 : Nat → Char := fun i => "PUT / HTTP/1.0\n".toList.getD i ' '

/-- Counterexample to C2 as stated: the request line `PUT / HTTP/1.0` is
accepted (return 0), but `method` is none of GET/HEAD/POST/UNKNOWN — the
3-byte non-`GET` token falls through the `case 3` without any assignment,
leaving the field at its entry value (0 here). -/
theorem claim_C2_cex :
    (http_parse_request_line cexBuf2 { last := 15 }).1 = 0 ∧
    ¬ ((http_parse_request_line cexBuf2 { last := 15 }).2.core.method = HTTP_GET ∨
       (http_parse_request_line cexBuf2 { last := 15 }).2.core.method = HTTP_HEAD ∨
       (http_parse_request_line cexBuf2 { last := 15 }).2.core.method = HTTP_POST ∨
       (http_parse_request_line cexBuf2 { last := 15 }).2.core.method = HTTP_UNKNOWN) := by
  decide

/-- The byte stream `GET / HTTP/1.1` + bare LF used by the C4 counterexample. -/
def cexBuf4 : Nat → Char := fun i => "GET / HTTP/1.1\n".toList.getD i ' '

/-- Counterexample to C4 as stated: on a successful parse terminated by a
bare LF (at stream position 14), `request_end` is set to the LF position
itself (14), not to the byte before the LF (13). -/
theorem claim_C4_cex :
    (http_parse_request_line cexBuf4 { last := 15 }).1 = 0 ∧
    cexBuf4 14 = LFc ∧
    (http_parse_request_line cexBuf4 { last := 15 }).2.core.request_end = some 14 ∧
    (http_parse_request_line cexBuf4 { last := 15 }).2.core.request_end ≠ some 13 := by
  decide

/-- Counterexample to C6 as stated: the header name `connection` equals the
table entry `Connection` case-insensitively, yet `http_handle_header`
invokes no handler for it (`strncmp` is case-sensitive). -/
theorem claim_C6_cex :
    ("connection".toList.map tolowerC = "Connection".toList.map tolowerC) ∧
    http_handle_header [("connection".toList, "keep-alive".toList)] = [] := by
  decide

/-- `Char.ofNat` on a valid scalar value round-trips through `toNat`. -/
theorem toNat_ofNat_valid (n : Nat) (h : n.isValidChar) : (Char.ofNat n).toNat = n := by
  unfold Char.ofNat
  rw [dif_pos h]
  rfl

/-- Lower-casing maps only the NUL byte to the NUL byte. -/
theorem tolowerC_nul_iff (c : Char) : tolowerC c = '\x00' ↔ c = '\x00' := by
  unfold tolowerC
  split
  case isTrue h =>
    constructor
    · intro he
      exfalso
      have hv : (c.toNat + 32).isValidChar := Or.inl (by omega)
      have ht := congrArg Char.toNat he
      rw [toNat_ofNat_valid _ hv] at ht
      have h0 : ('\x00').toNat = 0 := rfl
      omega
    · intro he
      exfalso
      rw [he] at h
      have h0 : ('\x00').toNat = 0 := rfl
      omega
  case isFalse h => exact Iff.rfl

/-- `strncmp(key, name, strlen-of-key) == 0` coincides, for NUL-free byte
strings, with `key` being a byte-exact prefix of `name`. -/
theorem strncmpEq_pfx (key name : List Char) (hk : '\x00' ∉ key)
    (hn : '\x00' ∉ name) : strncmpEq key name key.length = key.isPrefixOf name := by
  induction key generalizing name with
  | nil => cases name <;> rfl
  | cons k ks ih =>
    have hk0 : k ≠ '\x00' := fun h => hk (h ▸ List.mem_cons_self k ks)
    have hks : '\x00' ∉ ks := fun h => hk (List.mem_cons_of_mem _ h)
    cases name with
    | nil =>
      simp [strncmpEq, List.isPrefixOf, hk0]
    | cons n ns =>
      have hns : '\x00' ∉ ns := fun h => hn (List.mem_cons_of_mem _ h)
      by_cases he : k = n
      · subst he
        simp [strncmpEq, List.isPrefixOf, hk0, ih ns hks hns]
      · simp [strncmpEq, List.isPrefixOf, he]

/-- C6 amended: header dispatch is case-sensitive and prefix-by-length.  For
a NUL-free key, a single parsed header invokes the handler of the first table
entry (`Host`, `Connection`, `If-Modified-Since`, in order) of which the key
is a byte-exact prefix, passing it the header's value; otherwise it invokes
nothing.  Dispatch distributes over concatenation of header lists, so this
describes every parsed header of any list. -/
theorem claim_C6 :
    (∀ (key value : List Char), '\x00' ∉ key →
      http_handle_header [(key, value)] =
        if key.isPrefixOf "Host".toList then [("Host".toList, value)]
        else if key.isPrefixOf "Connection".toList then [("Connection".toList, value)]
        else if key.isPrefixOf "If-Modified-Since".toList then
          [("If-Modified-Since".toList, value)]
        else []) ∧
    (∀ hs1 hs2, http_handle_header (hs1 ++ hs2) =
        http_handle_header hs1 ++ http_handle_header hs2) := by
  constructor
  · intro key value h
    have e1 := strncmpEq_pfx key "Host".toList h (by decide)
    have e2 := strncmpEq_pfx key "Connection".toList h (by decide)
    have e3 := strncmpEq_pfx key "If-Modified-Since".toList h (by decide)
    simp only [http_handle_header, http_headers_in, findHandler, e1, e2, e3]
    split_ifs <;> simp_all
  · intro hs1 hs2
    induction hs1 with
    | nil => rfl
    | cons kv rest ih =>
      simp [http_handle_header, ih, List.append_assoc]

/-- Witness for C6 at a concrete header. -/
theorem claim_C6_witness :
    http_handle_header [("Connection".toList, "x".toList)] =
      [("Connection".toList, "x".toList)] := by
  rw [claim_C6.1 "Connection".toList "x".toList (by decide)]
  decide

/-- Characterization of `strncasecmp(a, data, strlen-of-data) == 0` for a
NUL-free first argument `a`: when `data` is no longer than `a` it means the
lower-cased `data` is a prefix of the lower-cased `a`; when `data` is longer
it means the first `|a|` bytes match case-insensitively and the next byte of
`data` is NUL (where the comparison stops). -/
theorem strncaseEq_spec (a b : List Char) (ha : '\x00' ∉ a) :
    strncaseEq a b b.length = true ↔
      (if b.length ≤ a.length then
        (b.map tolowerC).isPrefixOf (a.map tolowerC) = true
       else ((b.take a.length).map tolowerC = a.map tolowerC ∧
             b.getD a.length 'x' = '\x00')) := by
  induction b generalizing a with
  | nil =>
    simp [strncaseEq, List.isPrefixOf]
  | cons y ys ih =>
    cases a with
    | nil =>
      simp only [List.length_cons, strncaseEq, List.headD_cons, List.headD_nil,
        List.tail_cons, List.tail_nil, List.length_nil, List.take_zero,
        List.map_nil, List.getD_cons_zero]
      have h0 : tolowerC '\x00' = '\x00' := by decide
      rw [h0]
      by_cases hy : tolowerC y = '\x00'
      · have hy2 : y = '\x00' := (tolowerC_nul_iff y).mp hy
        simp [hy, hy2, h0]
      · have hy2 : y ≠ '\x00' := fun h => hy ((tolowerC_nul_iff y).mpr h)
        have hy3 : ('\x00' : Char) ≠ tolowerC y := fun h => hy h.symm
        simp [hy3, hy2]
    | cons z zs =>
      have hz : z ≠ '\x00' := fun h => ha (h ▸ List.mem_cons_self z zs)
      have hzs : '\x00' ∉ zs := fun h => ha (List.mem_cons_of_mem _ h)
      have hx0 : tolowerC z ≠ '\x00' := fun h => hz ((tolowerC_nul_iff z).mp h)
      simp only [List.length_cons, strncaseEq, List.headD_cons, List.tail_cons]
      by_cases hxy : tolowerC z = tolowerC y
      · rw [if_neg (show ¬ (tolowerC z ≠ tolowerC y) from fun h => h hxy),
          if_neg hx0, ih zs hzs]
        by_cases hl : ys.length ≤ zs.length
        · rw [if_pos hl, if_pos (show ys.length + 1 ≤ zs.length + 1 by omega)]
          simp [List.isPrefixOf, hxy]
        · rw [if_neg hl, if_neg (show ¬ (ys.length + 1 ≤ zs.length + 1) by omega)]
          simp only [List.take_succ_cons, List.map_cons,
            List.cons.injEq, List.getD_cons_succ]
          rw [hxy]
          simp
      · rw [if_pos (show tolowerC z ≠ tolowerC y from hxy)]
        have hxy2 : tolowerC y ≠ tolowerC z := fun h => hxy h.symm
        by_cases hl : ys.length ≤ zs.length
        · rw [if_pos (show ys.length + 1 ≤ zs.length + 1 by omega)]
          simp [List.isPrefixOf, hxy2]
        · rw [if_neg (show ¬ (ys.length + 1 ≤ zs.length + 1) by omega)]
          simp only [List.take_succ_cons, List.map_cons,
            List.cons.injEq, List.getD_cons_succ]
          simp [hxy2]

/-- C10 amended: `http_process_connection` sets `out.keep_alive` (leaving
every other field alone) exactly when `strncasecmp("keep-alive", data, len)`
reports a match, which is: the lower-cased value is a prefix of `keep-alive`
when the value has at most ten bytes; a value of eleven or more bytes matches
exactly when its first ten bytes are `keep-alive` case-insensitively and its
eleventh byte is NUL (the comparison stops at the shared NUL).  In
particular `keep`, `K`, and the empty value enable keep-alive, and NUL-free
values that are not case-insensitive prefixes leave `out` unchanged. -/
theorem claim_C10 (out : http_out_t) (data : List Char) :
    http_process_connection out data =
      if (if data.length ≤ 10 then
            (data.map tolowerC).isPrefixOf "keep-alive".toList = true
          else ((data.take 10).map tolowerC = "keep-alive".toList ∧
                data.getD 10 'x' = '\x00'))
      then { out with keep_alive := true } else out := by
  have hs := strncaseEq_spec "keep-alive".toList data (by decide)
  have hl : "keep-alive".toList.length = 10 := by decide
  have hm : "keep-alive".toList.map tolowerC = "keep-alive".toList := by decide
  rw [hl, hm] at hs
  unfold http_process_connection
  by_cases hc : strncaseEq "keep-alive".toList data data.length = true
  · rw [if_pos hc, if_pos (hs.mp hc)]
  · rw [if_neg hc, if_neg (fun hh => hc (hs.mpr hh))]

/-- Counterexample to C10 as stated: the header value `keep-alive\0x`
(twelve bytes) is not a case-insensitive prefix of `keep-alive`, yet
`http_process_connection` sets `keep_alive` — `strncasecmp` stops at the
shared NUL after ten matching bytes and reports equality. -/
theorem claim_C10_cex :
    (("keep-alive".toList ++ ['\x00', 'x']).map tolowerC).isPrefixOf
        "keep-alive".toList = false ∧
    (http_process_connection { keep_alive := false, modified := true, status := 0 }
        ("keep-alive".toList ++ ['\x00', 'x'])).keep_alive = true := by
  decide

/-- Every character printed for a number is a decimal digit. -/
theorem natDigits_digit (n : Nat) : ∀ c ∈ natDigits n, 48 ≤ c.toNat ∧ c.toNat ≤ 57 := by
  induction n using Nat.strong_induction_on with
  | _ n ih =>
    intro c hc
    unfold natDigits at hc
    by_cases h : n < 10
    · rw [dif_pos h] at hc
      have hc2 : c = Char.ofNat ('0'.toNat + n) := by simpa using hc
      subst hc2
      have h48 : ('0').toNat = 48 := rfl
      have hv : ('0'.toNat + n).isValidChar := Or.inl (by omega)
      rw [toNat_ofNat_valid _ hv]
      omega
    · rw [dif_neg h] at hc
      rcases List.mem_append.mp hc with h1 | h2
      · exact ih (n / 10) (Nat.div_lt_self (by omega) (by omega)) c h1
      · have hc2 : c = Char.ofNat ('0'.toNat + n % 10) := by simpa using h2
        subst hc2
        have h10 : n % 10 < 10 := Nat.mod_lt _ (by omega)
        have h48 : ('0').toNat = 48 := rfl
        have hv : ('0'.toNat + n % 10).isValidChar := Or.inl (by omega)
        rw [toNat_ofNat_valid _ hv]
        omega

/-- The characters `k` and `=` never occur in a printed number. -/
theorem intToChars_clean (i : Int) : 'k' ∉ intToChars i ∧ '=' ∉ intToChars i := by
  have hk : ('k').toNat = 107 := rfl
  have he : ('=').toNat = 61 := rfl
  have hdk : ∀ n : Nat, 'k' ∉ natDigits n := fun n h => by
    have := natDigits_digit n 'k' h
    omega
  have hde : ∀ n : Nat, '=' ∉ natDigits n := fun n h => by
    have := natDigits_digit n '=' h
    omega
  unfold intToChars
  split
  · constructor
    · intro h
      rcases List.mem_cons.mp h with h1 | h1
      · exact absurd h1 (by decide)
      · exact hdk _ h1
    · intro h
      rcases List.mem_cons.mp h with h1 | h1
      · exact absurd h1 (by decide)
      · exact hde _ h1
  · exact ⟨hdk _, hde _⟩

/-- The MIME-table scan returns one of the table values or the default; all
are free of `k` and `=`. -/
theorem mimeLookup_clean (s : List Char) (tbl : List (List Char × List Char))
    (h : ∀ e ∈ tbl, 'k' ∉ e.2 ∧ '=' ∉ e.2) :
    'k' ∉ mimeLookup s tbl ∧ '=' ∉ mimeLookup s tbl := by
  induction tbl with
  | nil =>
    simp only [mimeLookup]
    exact ⟨by decide, by decide⟩
  | cons e rest ih =>
    obtain ⟨ty, v⟩ := e
    simp only [mimeLookup]
    split
    · exact h (ty, v) (List.mem_cons_self _ _)
    · exact ih (fun e he => h e (List.mem_cons_of_mem _ he))

/-- `get_file_type` never returns a string containing `k` or `=`. -/
theorem get_file_type_clean (t : Option (List Char)) :
    'k' ∉ get_file_type t ∧ '=' ∉ get_file_type t := by
  cases t with
  | none => exact ⟨by decide, by decide⟩
  | some s => exact mimeLookup_clean s mime (by decide)

/-- A character outside both parts is outside the concatenation. -/
theorem not_mem_append {c : Char} {a b : List Char} (ha : c ∉ a) (hb : c ∉ b) :
    c ∉ a ++ b := by
  intro h
  rcases List.mem_append.mp h with h1 | h1
  · exact ha h1
  · exact hb h1

/-- A character of an embedded segment occurs in the whole list. -/
theorem seg_in_mem {p l : List Char} {c : Char} (h : seg_in p l) (hc : c ∈ p) :
    c ∈ l := by
  obtain ⟨s, t, rfl⟩ := h
  exact List.mem_append.mpr (Or.inl (List.mem_append.mpr (Or.inr hc)))

/-- A character absent from every emitted piece is absent from the header
block when `keep_alive` is off. -/
theorem serve_header_no_char (status : Int) (modified : Bool)
    (filename : List Char) (filesize : Nat) (lm : List Char) (c : Char)
    (h1 : c ∉ "HTTP/1.1 ".toList) (h2 : c ∉ intToChars status)
    (h3 : c ∉ " ".toList) (h4 : c ∉ get_msg_from_status status)
    (h5 : c ∉ "\r\n".toList)
    (h6 : c ∉ "Content-type: ".toList)
    (h7 : c ∉ get_file_type (strrchr filename '.'))
    (h8 : c ∉ "Content-length: ".toList) (h9 : c ∉ natDigits filesize)
    (h10 : c ∉ "Last-Modified: ".toList) (h11 : c ∉ lm)
    (h12 : c ∉ "Server: seHTTPd\r\n\r\n".toList) :
    c ∉ serve_static_header status false modified filename filesize lm := by
  cases modified with
  | false =>
    show c ∉ "HTTP/1.1 ".toList ++ intToChars status ++ " ".toList ++
      get_msg_from_status status ++ "\r\n".toList ++ ([] : List Char) ++
      ([] : List Char) ++ "Server: seHTTPd\r\n\r\n".toList
    exact not_mem_append (not_mem_append (not_mem_append (not_mem_append
      (not_mem_append (not_mem_append (not_mem_append h1 h2) h3) h4) h5)
      (List.not_mem_nil c)) (List.not_mem_nil c)) h12
  | true =>
    show c ∉ "HTTP/1.1 ".toList ++ intToChars status ++ " ".toList ++
      get_msg_from_status status ++ "\r\n".toList ++ ([] : List Char) ++
      ("Content-type: ".toList ++ get_file_type (strrchr filename '.') ++
        "\r\n".toList ++ "Content-length: ".toList ++ natDigits filesize ++
        "\r\n".toList ++ "Last-Modified: ".toList ++ lm ++ "\r\n".toList) ++
      "Server: seHTTPd\r\n\r\n".toList
    exact not_mem_append (not_mem_append (not_mem_append (not_mem_append
      (not_mem_append (not_mem_append (not_mem_append h1 h2) h3) h4) h5)
      (List.not_mem_nil c))
      (not_mem_append (not_mem_append (not_mem_append (not_mem_append
        (not_mem_append (not_mem_append (not_mem_append (not_mem_append h6 h7)
        h5) h8) h9) h5) h10) h11) h5)) h12

/-- C7: for every header block emitted by `serve_static` (statuses 200 or
304, as produced by `do_request`; the `Last-Modified` date string contains
neither `k` nor `=`, as `strftime` output never does): when `keep_alive` is
set the block contains the exact lines `Connection: keep-alive\r\n` and
`Keep-Alive: timeout=500\r\n` (500 = `TIMEOUT_DEFAULT`); when it is off the
block contains neither line. -/
theorem claim_C7 (status : Int) (keep_alive modified : Bool)
    (filename : List Char) (filesize : Nat) (lm : List Char)
    (hst : status = 200 ∨ status = 304)
    (hlm : 'k' ∉ lm ∧ '=' ∉ lm) :
    (keep_alive = true →
      seg_in connLine (serve_static_header status keep_alive modified filename filesize lm) ∧
      seg_in kaLine (serve_static_header status keep_alive modified filename filesize lm)) ∧
    (keep_alive = false →
      ¬ seg_in connLine (serve_static_header status keep_alive modified filename filesize lm) ∧
      ¬ seg_in kaLine (serve_static_header status keep_alive modified filename filesize lm)) := by
  constructor
  · intro hk
    subst hk
    constructor
    · refine ⟨"HTTP/1.1 ".toList ++ intToChars status ++ " ".toList ++
        get_msg_from_status status ++ "\r\n".toList,
        kaLine ++
        (if modified then
          "Content-type: ".toList ++ get_file_type (strrchr filename '.') ++
            "\r\n".toList ++ "Content-length: ".toList ++ natDigits filesize ++
            "\r\n".toList ++ "Last-Modified: ".toList ++ lm ++ "\r\n".toList
         else []) ++ "Server: seHTTPd\r\n\r\n".toList, ?_⟩
      simp [serve_static_header, List.append_assoc]
    · refine ⟨"HTTP/1.1 ".toList ++ intToChars status ++ " ".toList ++
        get_msg_from_status status ++ "\r\n".toList ++ connLine,
        (if modified then
          "Content-type: ".toList ++ get_file_type (strrchr filename '.') ++
            "\r\n".toList ++ "Content-length: ".toList ++ natDigits filesize ++
            "\r\n".toList ++ "Last-Modified: ".toList ++ lm ++ "\r\n".toList
         else []) ++ "Server: seHTTPd\r\n\r\n".toList, ?_⟩
      simp [serve_static_header, List.append_assoc]
  · intro hk
    subst hk
    have hmsg : 'k' ∉ get_msg_from_status status ∧ '=' ∉ get_msg_from_status status := by
      rcases hst with h | h <;> subst h <;> exact ⟨by decide, by decide⟩
    have hnd : ∀ c : Char, 57 < c.toNat → c ∉ natDigits filesize := fun c hc h => by
      have := natDigits_digit filesize c h
      omega
    have hK : 'k' ∉ serve_static_header status false modified filename filesize lm :=
      serve_header_no_char status modified filename filesize lm 'k'
        (by decide) (intToChars_clean status).1 (by decide) hmsg.1 (by decide)
        (by decide) (get_file_type_clean _).1 (by decide)
        (hnd 'k' (by decide)) (by decide) hlm.1 (by decide)
    have hE : '=' ∉ serve_static_header status false modified filename filesize lm :=
      serve_header_no_char status modified filename filesize lm '='
        (by decide) (intToChars_clean status).2 (by decide) hmsg.2 (by decide)
        (by decide) (get_file_type_clean _).2 (by decide)
        (hnd '=' (by decide)) (by decide) hlm.2 (by decide)
    constructor
    · intro hseg
      exact hK (seg_in_mem hseg (by decide))
    · intro hseg
      exact hE (seg_in_mem hseg (by decide))

/-- Witness for C7 at a concrete 200 keep-alive response. -/
theorem claim_C7_witness :
    seg_in connLine (serve_static_header 200 true true "/a.css".toList 17
      "Mon, 01 Jan 2024 00:00:00 GMT".toList) ∧
    seg_in kaLine (serve_static_header 200 true true "/a.css".toList 17
      "Mon, 01 Jan 2024 00:00:00 GMT".toList) :=
  (claim_C7 200 true true "/a.css".toList 17
    "Mon, 01 Jan 2024 00:00:00 GMT".toList (Or.inl rfl)
    ⟨by decide, by decide⟩).1 rfl

/-- A loop that ran out of fuel stopped exactly `fuel` bytes after `pi`. -/
theorem parseAux_eagain (step : Core → Nat → Nat → LStep) (fuel : Nat) (c : Core)
    (st pi : Nat) (c' : Core) (st' pi' : Nat)
    (h : parseAux step fuel c st pi = .eagain c' st' pi') : pi' = pi + fuel := by
  induction fuel generalizing c st pi with
  | zero =>
    simp only [parseAux] at h
    cases h
    omega
  | succ fuel ih =>
    simp only [parseAux] at h
    cases hl : step c st pi with
    | cont c2 st2 =>
      rw [hl] at h
      have := ih _ _ _ h
      omega
    | stop code c2 => rw [hl] at h; cases h
    | fin c2 => rw [hl] at h; cases h

/-- An error return consumed at least one byte, and its code came from a
`stop` of the step function. -/
theorem parseAux_err (step : Core → Nat → Nat → LStep) (fuel : Nat) (c : Core)
    (st pi : Nat) (code : Int) (c' : Core)
    (h : parseAux step fuel c st pi = .err code c') :
    fuel ≠ 0 ∧ ∃ c0 st0 pi0 c1, step c0 st0 pi0 = .stop code c1 := by
  induction fuel generalizing c st pi with
  | zero => simp only [parseAux] at h; cases h
  | succ fuel ih =>
    refine ⟨Nat.succ_ne_zero _, ?_⟩
    simp only [parseAux] at h
    cases hl : step c st pi with
    | cont c2 st2 =>
      rw [hl] at h
      exact (ih _ _ _ h).2
    | stop code2 c2 =>
      rw [hl] at h
      injection h with h1 h2
      rw [h1] at hl
      exact ⟨c, st, pi, c2, hl⟩
    | fin c2 => rw [hl] at h; cases h

/-- Splitting the fuel: running `a + b` steps is running `a` steps and, when
they end in exhaustion, resuming from the saved configuration for `b` more.
This is the loop-level resumability of the FSM. -/
theorem parseAux_add (step : Core → Nat → Nat → LStep) (a b : Nat) (c : Core)
    (st pi : Nat) :
    parseAux step (a + b) c st pi =
      (match parseAux step a c st pi with
       | .eagain c1 st1 pi1 => parseAux step b c1 st1 pi1
       | o => o) := by
  induction a generalizing c st pi with
  | zero =>
    simp only [Nat.zero_add, parseAux]
  | succ a ih =>
    have hsa : a + 1 + b = (a + b) + 1 := by omega
    rw [hsa]
    simp only [parseAux]
    cases hl : step c st pi with
    | cont c2 st2 => exact ih c2 st2 (pi + 1)
    | stop code c2 => rfl
    | fin c2 => rfl

/-- Exit-path assembly over two base records that agree on `last` produces
the same return code, the same core, and the same `last`; on the `done` and
`eagain` paths (which overwrite `pos` and `state`) the full results agree. -/
theorem mkAssemble_bridge (f : Core → Nat → Core) (r1 r2 : http_request_t)
    (o : ParseOut) (hl : r1.last = r2.last) :
    (mkAssemble f r1 o).1 = (mkAssemble f r2 o).1 ∧
    (mkAssemble f r1 o).2.core = (mkAssemble f r2 o).2.core ∧
    (mkAssemble f r1 o).2.last = (mkAssemble f r2 o).2.last ∧
    (∀ c pi, o = .done c pi → mkAssemble f r1 o = mkAssemble f r2 o) ∧
    (∀ c st pi, o = .eagain c st pi → mkAssemble f r1 o = mkAssemble f r2 o) := by
  obtain ⟨p1, l1, s1, c1⟩ := r1
  obtain ⟨p2, l2, s2, c2⟩ := r2
  simp only at hl
  subst hl
  cases o <;> simp [mkAssemble]

/-- Every error code of the request-line `switch` is `INVALID_METHOD` or
`INVALID_REQUEST`. -/
theorem lineStep_stop (buf : Nat → Char) (c : Core) (st pi : Nat) (code : Int)
    (c2 : Core) (h : lineStep buf c st pi = .stop code c2) :
    code = HTTP_PARSER_INVALID_METHOD ∨ code = HTTP_PARSER_INVALID_REQUEST := by
  simp only [lineStep] at h
  split at h <;> (try split_ifs at h) <;> simp_all

/-- Every error code of the header `switch` is `INVALID_HEADER`. -/
theorem bodyStep_stop (buf : Nat → Char) (c : Core) (st pi : Nat) (code : Int)
    (c2 : Core) (h : bodyStep buf c st pi = .stop code c2) :
    code = HTTP_PARSER_INVALID_HEADER := by
  simp only [bodyStep] at h
  split at h <;> (try split_ifs at h) <;> simp_all

/-- Chunked feeding of a parser agrees with the single-shot parse over the
concatenated stream: same return code, same core (every parsed field); on a
successful final call also the same `pos` and `state`; when the single-shot
run ends in exhaustion (`pos = last` with a non-zero code) the entire records
agree.  An erroring call does not save `pos`/`state`, which is why those two
fields are not compared on error outcomes. -/
theorem feed_eq (step : Core → Nat → Nat → LStep) (f : Core → Nat → Core)
    (hcode : ∀ c st pi code c2, step c st pi = .stop code c2 → code ≠ 0) :
    ∀ (chunks : List Nat) (r : http_request_t), r.pos ≤ r.last →
      (feedChunks (runParser step f) r chunks).1 =
        (runParser step f { r with last := r.last + chunks.sum }).1 ∧
      (feedChunks (runParser step f) r chunks).2.core =
        (runParser step f { r with last := r.last + chunks.sum }).2.core ∧
      ((feedChunks (runParser step f) r chunks).1 = 0 →
        (feedChunks (runParser step f) r chunks).2.pos =
          (runParser step f { r with last := r.last + chunks.sum }).2.pos ∧
        (feedChunks (runParser step f) r chunks).2.state =
          (runParser step f { r with last := r.last + chunks.sum }).2.state) ∧
      (((runParser step f { r with last := r.last + chunks.sum }).1 ≠ 0 ∧
          (runParser step f { r with last := r.last + chunks.sum }).2.pos =
            (runParser step f { r with last := r.last + chunks.sum }).2.last) →
        (feedChunks (runParser step f) r chunks).2 =
          (runParser step f { r with last := r.last + chunks.sum }).2) := by
  intro chunks
  induction chunks with
  | nil =>
    intro r h
    have he : ({ r with last := r.last + List.sum [] } : http_request_t) = r := by
      obtain ⟨p, l, s, c⟩ := r
      simp
    rw [he]
    exact ⟨rfl, rfl, fun _ => ⟨rfl, rfl⟩, fun _ => rfl⟩
  | cons n ns ih =>
    intro r h
    have hA : r.last + (n :: ns).sum - r.pos = (r.last + n - r.pos) + ns.sum := by
      simp only [List.sum_cons]
      omega
    have hsingle : runParser step f { r with last := r.last + (n :: ns).sum } =
        mkAssemble f { r with last := r.last + (n :: ns).sum }
          (match parseAux step (r.last + n - r.pos) r.core r.state r.pos with
           | .eagain c1 st1 pi1 => parseAux step ns.sum c1 st1 pi1
           | o => o) := by
      show mkAssemble f { r with last := r.last + (n :: ns).sum }
          (parseAux step (r.last + (n :: ns).sum - r.pos) r.core r.state r.pos) = _
      rw [hA, parseAux_add]
    have hfirst : runParser step f { r with last := r.last + n } =
        mkAssemble f { r with last := r.last + n }
          (parseAux step (r.last + n - r.pos) r.core r.state r.pos) := rfl
    simp only [feedChunks]
    rw [hsingle, hfirst]
    cases ho : parseAux step (r.last + n - r.pos) r.core r.state r.pos with
    | done c pi =>
      simp only [mkAssemble]
      rw [if_neg (show ¬ ((0 : Int) ≠ 0 ∧ pi + 1 = r.last + n) from
        fun hx => hx.1 rfl)]
      exact ⟨rfl, rfl, fun _ => ⟨rfl, rfl⟩, fun hx => absurd rfl hx.1⟩
    | err code c2 =>
      obtain ⟨hfz, c0, st0, pi0, c1x, hstop⟩ := parseAux_err step _ _ _ _ _ _ ho
      have hcz : code ≠ 0 := hcode _ _ _ _ _ hstop
      have hlt : r.pos < r.last + n := by
        rcases Nat.eq_zero_or_pos (r.last + n - r.pos) with h0 | h0
        · exact absurd h0 hfz
        · omega
      simp only [mkAssemble]
      rw [if_neg (show ¬ (code ≠ 0 ∧ r.pos = r.last + n) from
        fun hx => absurd hx.2 (by omega))]
      refine ⟨rfl, rfl, fun h0 => absurd h0 hcz, fun hx => ?_⟩
      exfalso
      have h2 := hx.2
      simp only [List.sum_cons] at h2
      omega
    | eagain c1 st1 pi1 =>
      have hpi : pi1 = r.pos + (r.last + n - r.pos) :=
        parseAux_eagain step _ _ _ _ _ _ _ ho
      have hpil : pi1 = r.last + n := by omega
      simp only [mkAssemble]
      rw [if_pos (show EAGAIN ≠ 0 ∧ pi1 = r.last + n from ⟨by decide, hpil⟩)]
      have IH := ih ⟨pi1, r.last + n, st1, c1⟩ (by dsimp only; omega)
      dsimp only at IH
      have hs1 : runParser step f ⟨pi1, r.last + n + List.sum ns, st1, c1⟩ =
          mkAssemble f ⟨pi1, r.last + n + List.sum ns, st1, c1⟩
            (parseAux step ns.sum c1 st1 pi1) := by
        show mkAssemble f _
          (parseAux step (r.last + n + List.sum ns - pi1) c1 st1 pi1) = _
        rw [show r.last + n + List.sum ns - pi1 = ns.sum by omega]
      rw [hs1] at IH
      obtain ⟨b1, b2, b3, b4, b5⟩ := mkAssemble_bridge f
        ⟨pi1, r.last + n + List.sum ns, st1, c1⟩
        { r with last := r.last + (n :: ns).sum }
        (parseAux step ns.sum c1 st1 pi1)
        (by dsimp only; simp only [List.sum_cons]; omega)
      obtain ⟨i1, i2, i3, i4⟩ := IH
      refine ⟨i1.trans b1, i2.trans b2, ?_, ?_⟩
      · intro h0
        rcases hod : parseAux step ns.sum c1 st1 pi1 with ⟨cd, pid⟩ |
          ⟨cd, std, pid⟩ | ⟨coded, cd⟩
        · have hfull := b4 cd pid hod
          rw [hod] at i3
          rw [hod] at hfull
          obtain ⟨ip, is⟩ := i3 h0
          exact ⟨ip.trans (congrArg (fun x => x.2.pos) hfull),
            is.trans (congrArg (fun x => x.2.state) hfull)⟩
        · have hfull := b5 cd std pid hod
          rw [hod] at i3
          rw [hod] at hfull
          obtain ⟨ip, is⟩ := i3 h0
          exact ⟨ip.trans (congrArg (fun x => x.2.pos) hfull),
            is.trans (congrArg (fun x => x.2.state) hfull)⟩
        · exfalso
          obtain ⟨hfz2, d0, d1, d2, d3, hstop2⟩ := parseAux_err step _ _ _ _ _ _ hod
          rw [hod] at i1
          have hcd : (feedChunks (runParser step f) ⟨pi1, r.last + n, st1, c1⟩ ns).1 = coded := by
            rw [i1]
            rfl
          rw [h0] at hcd
          exact hcode _ _ _ _ _ hstop2 hcd.symm
      · intro hx
        rcases hod : parseAux step ns.sum c1 st1 pi1 with ⟨cd, pid⟩ |
          ⟨cd, std, pid⟩ | ⟨coded, cd⟩
        · exfalso
          rw [hod] at hx
          exact hx.1 rfl
        · rw [hod] at i4 hx
          try rw [hod]
          dsimp only [mkAssemble] at i4
          dsimp only at hx ⊢
          simp only [List.sum_cons] at hx ⊢
          have hi := i4 ⟨hx.1, by omega⟩
          rw [hi, show r.last + n + List.sum ns = r.last + (n + List.sum ns) from by omega]
        · exfalso
          obtain ⟨hfz2, d0, d1, d2, d3, hstop2⟩ := parseAux_err step _ _ _ _ _ _ hod
          rw [hod] at hx
          have hpos := hx.2
          dsimp at hpos
          try simp only [List.sum_cons] at hpos
          have hnz : List.sum ns ≠ 0 := hfz2
          omega

/-- C1 amended: for every byte stream and every partitioning into chunks,
feeding either parser chunk-by-chunk — resuming exactly when a call ran out
of data (EAGAIN with `pos` saved as `last`) — produces the same return code
and the same parsed results (`method`, `uri_start`/`uri_end`, `http_major`,
`http_minor`, `request_start`, `request_end`, headers: the entire core) as
one call over the whole concatenated stream; when the final call succeeds it
also leaves the same `pos` and `state`, and when the single-shot run ends in
exhaustion the two final records are identical.  (After an error return,
`pos` and `state` are left at their last saved values, so those two fields
can differ between the two runs — see the counterexample.) -/
theorem claim_C1 (buf : Nat → Char) (r : http_request_t) (chunks : List Nat)
    (h : r.pos ≤ r.last) :
    ((feedChunks (http_parse_request_line buf) r chunks).1 =
        (http_parse_request_line buf { r with last := r.last + chunks.sum }).1 ∧
      (feedChunks (http_parse_request_line buf) r chunks).2.core =
        (http_parse_request_line buf { r with last := r.last + chunks.sum }).2.core ∧
      ((feedChunks (http_parse_request_line buf) r chunks).1 = 0 →
        (feedChunks (http_parse_request_line buf) r chunks).2.pos =
          (http_parse_request_line buf { r with last := r.last + chunks.sum }).2.pos ∧
        (feedChunks (http_parse_request_line buf) r chunks).2.state =
          (http_parse_request_line buf { r with last := r.last + chunks.sum }).2.state) ∧
      (((http_parse_request_line buf { r with last := r.last + chunks.sum }).1 ≠ 0 ∧
          (http_parse_request_line buf { r with last := r.last + chunks.sum }).2.pos =
            (http_parse_request_line buf { r with last := r.last + chunks.sum }).2.last) →
        (feedChunks (http_parse_request_line buf) r chunks).2 =
          (http_parse_request_line buf { r with last := r.last + chunks.sum }).2)) ∧
    ((feedChunks (http_parse_request_body buf) r chunks).1 =
        (http_parse_request_body buf { r with last := r.last + chunks.sum }).1 ∧
      (feedChunks (http_parse_request_body buf) r chunks).2.core =
        (http_parse_request_body buf { r with last := r.last + chunks.sum }).2.core ∧
      ((feedChunks (http_parse_request_body buf) r chunks).1 = 0 →
        (feedChunks (http_parse_request_body buf) r chunks).2.pos =
          (http_parse_request_body buf { r with last := r.last + chunks.sum }).2.pos ∧
        (feedChunks (http_parse_request_body buf) r chunks).2.state =
          (http_parse_request_body buf { r with last := r.last + chunks.sum }).2.state) ∧
      (((http_parse_request_body buf { r with last := r.last + chunks.sum }).1 ≠ 0 ∧
          (http_parse_request_body buf { r with last := r.last + chunks.sum }).2.pos =
            (http_parse_request_body buf { r with last := r.last + chunks.sum }).2.last) →
        (feedChunks (http_parse_request_body buf) r chunks).2 =
          (http_parse_request_body buf { r with last := r.last + chunks.sum }).2)) := by
  constructor
  · exact feed_eq (lineStep buf) lineFinish
      (fun c st pi code c2 hs => by
        rcases lineStep_stop buf c st pi code c2 hs with h1 | h1 <;>
          · rw [h1]; decide)
      chunks r h
  · exact feed_eq (bodyStep buf) (fun c _ => c)
      (fun c st pi code c2 hs => by
        rw [bodyStep_stop buf c st pi code c2 hs]; decide)
      chunks r h

/-- Witness for C1: the chunked and single-shot runs of both parsers agree
on the return code for a concrete stream and partitioning. -/
theorem claim_C1_witness :
    (feedChunks (http_parse_request_line cexBuf1) {} [8, 1]).1 =
      (http_parse_request_line cexBuf1
        { ({} : http_request_t) with
          last := ({} : http_request_t).last + List.sum [8, 1] }).1 ∧
    (feedChunks (http_parse_request_body cexBuf1) {} [8, 1]).1 =
      (http_parse_request_body cexBuf1
        { ({} : http_request_t) with
          last := ({} : http_request_t).last + List.sum [8, 1] }).1 :=
  ⟨(claim_C1 cexBuf1 {} [8, 1] (by decide)).1.1,
   (claim_C1 cexBuf1 {} [8, 1] (by decide)).2.1⟩

/-- The `method` field is either untouched or set to one of the four
`http_method` values. -/
def methodSet (c c2 : Core) : Prop :=
  c2.method = c.method ∨ c2.method = HTTP_GET ∨ c2.method = HTTP_HEAD ∨
    c2.method = HTTP_POST ∨ c2.method = HTTP_UNKNOWN

/-- `methodSet` composes along consecutive steps. -/
theorem methodSet_trans {a b c : Core} (h1 : methodSet a b) (h2 : methodSet b c) :
    methodSet a c := by
  unfold methodSet at *
  rcases h2 with h | h | h | h | h
  · rw [h]; exact h1
  · exact Or.inr (Or.inl h)
  · exact Or.inr (Or.inr (Or.inl h))
  · exact Or.inr (Or.inr (Or.inr (Or.inl h)))
  · exact Or.inr (Or.inr (Or.inr (Or.inr h)))

/-- Per-byte facts about the request-line `switch` from a state inside the C
enum: a continuing step keeps the state in the enum, never touches
`request_end`, respects `methodSet`, and only enters `almost_done` on a CR;
an error step returns `INVALID_METHOD` or `INVALID_REQUEST`; a `goto done`
step stands on an LF, respects `methodSet`, and sets `request_end` to the
previous position exactly when it fires from `almost_done`. -/
theorem lineStep_spec (buf : Nat → Char) (c : Core) (st pi : Nat) (hst : st ≤ 14) :
    match lineStep buf c st pi with
    | .cont c2 st2 => st2 ≤ 14 ∧ c2.request_end = c.request_end ∧ methodSet c c2 ∧
        (st2 = 14 → buf pi = CRc)
    | .stop code _ => code = HTTP_PARSER_INVALID_METHOD ∨ code = HTTP_PARSER_INVALID_REQUEST
    | .fin c2 => buf pi = LFc ∧ methodSet c c2 ∧
        ((st = 14 ∧ c2.request_end = some ((pi : Int) - 1)) ∨
          c2.request_end = c.request_end) := by
  interval_cases st <;>
    simp only [lineStep] <;>
    (try split_ifs) <;>
    simp_all [methodSet]

/-- Master characterization of the request-line loop started in a state of
the C enum (with the almost_done precondition that the previous byte was a
CR): on `done` the loop stands on an LF within the fueled window, and
`request_end` is either the CR just before the LF (CR LF terminator) or
untouched (bare LF; the wrapper then defaults it), while `method` is only
ever set to a value of the `http_method` enum; on exhaustion all fuel is
consumed; on error the code is `INVALID_METHOD` or `INVALID_REQUEST`. -/
theorem lineAux_spec (buf : Nat → Char) (fuel : Nat) :
    ∀ (c : Core) (st pi : Nat), st ≤ 14 →
      (st = 14 → 1 ≤ pi ∧ buf (pi - 1) = CRc) →
      (match parseAux (lineStep buf) fuel c st pi with
       | .done c2 k =>
           pi ≤ k ∧ k < pi + fuel ∧ buf k = LFc ∧
           ((1 ≤ k ∧ buf (k - 1) = CRc ∧ c2.request_end = some ((k : Int) - 1)) ∨
             c2.request_end = c.request_end) ∧ methodSet c c2
       | .eagain _ _ pi2 => pi2 = pi + fuel
       | .err code _ =>
           code = HTTP_PARSER_INVALID_METHOD ∨ code = HTTP_PARSER_INVALID_REQUEST) := by
  induction fuel with
  | zero =>
    intro c st pi _ _
    simp only [parseAux]
    omega
  | succ fuel ih =>
    intro c st pi hle h14
    simp only [parseAux]
    have hfacts := lineStep_spec buf c st pi hle
    cases hl : lineStep buf c st pi with
    | cont c2 st2 =>
      rw [hl] at hfacts
      obtain ⟨hst2, hre, hm, hcr⟩ := hfacts
      have hpre : st2 = 14 → 1 ≤ pi + 1 ∧ buf (pi + 1 - 1) = CRc := by
        intro h2
        exact ⟨by omega, by simpa using hcr h2⟩
      have IH := ih c2 st2 (pi + 1) hst2 hpre
      dsimp only
      cases hAux : parseAux (lineStep buf) fuel c2 st2 (pi + 1) with
      | done c3 k =>
        rw [hAux] at IH
        dsimp only at IH ⊢
        obtain ⟨hk1, hk2, hk3, hk4, hk5⟩ := IH
        refine ⟨by omega, by omega, hk3, ?_, methodSet_trans hm hk5⟩
        rcases hk4 with h | h
        · exact Or.inl h
        · exact Or.inr (h.trans hre)
      | eagain c3 st3 pi3 =>
        rw [hAux] at IH
        dsimp only at IH ⊢
        omega
      | err code c3 =>
        rw [hAux] at IH
        dsimp only at IH ⊢
        exact IH
    | stop code c2 =>
      rw [hl] at hfacts
      exact hfacts
    | fin c2 =>
      rw [hl] at hfacts
      obtain ⟨hlf, hm, hre⟩ := hfacts
      refine ⟨Nat.le_refl pi, by omega, hlf, ?_, hm⟩
      rcases hre with ⟨h14a, hre⟩ | hre
      · obtain ⟨hp1, hcr⟩ := h14 h14a
        exact Or.inl ⟨hp1, hcr, hre⟩
      · exact Or.inr hre

/-- C4 (amended): from the start state with `pos ≤ last` and `request_end`
unset, `http_parse_request_line` returns 0 exactly when it finds a line
terminator: `pos` advances one past the LF, `state` resets to the start
state, and `request_end` is the byte before the LF when the terminator is
CR LF — but the LF itself on a bare LF (the original claim said "the byte
before the LF" for both terminators).  A non-zero return is either EAGAIN
with `pos` saved at `last`, or INVALID_METHOD/INVALID_REQUEST with `pos`
and `state` keeping their entry values (not saved). -/
theorem claim_C4 (buf : Nat → Char) (r : http_request_t)
    (hst : r.state = 0) (hpl : r.pos ≤ r.last)
    (hre : r.core.request_end = none) :
    ((http_parse_request_line buf r).1 = 0 →
      ∃ k, r.pos ≤ k ∧ k < r.last ∧ buf k = LFc ∧
        (http_parse_request_line buf r).2.pos = k + 1 ∧
        (http_parse_request_line buf r).2.state = 0 ∧
        ((1 ≤ k ∧ buf (k - 1) = CRc ∧
            (http_parse_request_line buf r).2.core.request_end =
              some ((k : Int) - 1)) ∨
          (http_parse_request_line buf r).2.core.request_end = some (k : Int))) ∧
    ((http_parse_request_line buf r).1 ≠ 0 →
      ((http_parse_request_line buf r).1 = EAGAIN ∧
        (http_parse_request_line buf r).2.pos = r.last) ∨
      (((http_parse_request_line buf r).1 = HTTP_PARSER_INVALID_METHOD ∨
          (http_parse_request_line buf r).1 = HTTP_PARSER_INVALID_REQUEST) ∧
        (http_parse_request_line buf r).2.pos = r.pos ∧
        (http_parse_request_line buf r).2.state = r.state)) := by
  have hspec := lineAux_spec buf (r.last - r.pos) r.core r.state r.pos
    (by omega) (fun h => absurd h (by omega))
  unfold http_parse_request_line runParser
  cases hout : parseAux (lineStep buf) (r.last - r.pos) r.core r.state r.pos with
  | done c2 k =>
    rw [hout] at hspec
    dsimp only at hspec
    obtain ⟨hk1, hk2, hk3, hk4, _⟩ := hspec
    simp only [mkAssemble]
    refine ⟨fun _ => ⟨k, hk1, by omega, hk3, rfl, trivial, ?_⟩,
      fun h0 => absurd rfl h0⟩
    rcases hk4 with ⟨h1, h2, h3⟩ | h
    · have hne : ¬ (c2.request_end = none) := by
        rw [h3]; exact fun hh => Option.noConfusion hh
      simp only [lineFinish, if_neg hne]
      exact Or.inl ⟨h1, h2, h3⟩
    · have h0 : c2.request_end = none := h.trans hre
      simp only [lineFinish, if_pos h0]
      exact Or.inr trivial
  | eagain c3 st3 pi3 =>
    rw [hout] at hspec
    dsimp only at hspec
    simp only [mkAssemble]
    exact ⟨fun h0 => absurd h0 (by decide),
      fun _ => Or.inl ⟨trivial, by omega⟩⟩
  | err code c3 =>
    rw [hout] at hspec
    dsimp only at hspec
    simp only [mkAssemble]
    refine ⟨fun h0 => ?_, fun _ => Or.inr ⟨hspec, trivial, trivial⟩⟩
    rcases hspec with h | h <;> rw [h] at h0 <;> exact absurd h0 (by decide)

/-- Witness for C4: the request line `GET / HTTP/1.1` + bare LF (15 bytes)
is accepted, and the theorem's success clause holds at it. -/
theorem claim_C4_witness :
    ∃ k, ({ last := 15 } : http_request_t).pos ≤ k ∧ k < 15 ∧ cexBuf4 k = LFc ∧
      (http_parse_request_line cexBuf4 { last := 15 }).2.pos = k + 1 ∧
      (http_parse_request_line cexBuf4 { last := 15 }).2.state = 0 ∧
      ((1 ≤ k ∧ cexBuf4 (k - 1) = CRc ∧
          (http_parse_request_line cexBuf4 { last := 15 }).2.core.request_end =
            some ((k : Int) - 1)) ∨
        (http_parse_request_line cexBuf4 { last := 15 }).2.core.request_end =
          some (k : Int)) :=
  (claim_C4 cexBuf4 { last := 15 } rfl (by decide) rfl).1 (by decide)

/-- C2 (amended): from the start state, when `http_parse_request_line`
accepts (returns 0) the `method` field is one of HTTP_GET, HTTP_HEAD,
HTTP_POST, HTTP_UNKNOWN — or is left at its entry value: a 3- or 4-byte
method token other than `GET`/`POST`/`HEAD` falls through the length
`switch` without any assignment (the original claim said every accepted
token not among the three is classified HTTP_UNKNOWN); a non-zero return
is INVALID_METHOD, INVALID_REQUEST, or EAGAIN. -/
theorem claim_C2 (buf : Nat → Char) (r : http_request_t) (hst : r.state = 0) :
    ((http_parse_request_line buf r).1 = 0 →
      ((http_parse_request_line buf r).2.core.method = r.core.method ∨
       (http_parse_request_line buf r).2.core.method = HTTP_GET ∨
       (http_parse_request_line buf r).2.core.method = HTTP_HEAD ∨
       (http_parse_request_line buf r).2.core.method = HTTP_POST ∨
       (http_parse_request_line buf r).2.core.method = HTTP_UNKNOWN)) ∧
    ((http_parse_request_line buf r).1 ≠ 0 →
      ((http_parse_request_line buf r).1 = HTTP_PARSER_INVALID_METHOD ∨
       (http_parse_request_line buf r).1 = HTTP_PARSER_INVALID_REQUEST ∨
       (http_parse_request_line buf r).1 = EAGAIN)) := by
  have hspec := lineAux_spec buf (r.last - r.pos) r.core r.state r.pos
    (by omega) (fun h => absurd h (by omega))
  unfold http_parse_request_line runParser
  cases hout : parseAux (lineStep buf) (r.last - r.pos) r.core r.state r.pos with
  | done c2 k =>
    rw [hout] at hspec
    dsimp only at hspec
    obtain ⟨_, _, _, _, hm⟩ := hspec
    simp only [mkAssemble]
    refine ⟨fun _ => ?_, fun h0 => absurd rfl h0⟩
    have hlf : (lineFinish c2 k).method = c2.method := by
      unfold lineFinish; split <;> rfl
    rw [hlf]
    exact hm
  | eagain c3 st3 pi3 =>
    simp only [mkAssemble]
    exact ⟨fun h0 => absurd h0 (by decide), fun _ => Or.inr (Or.inr trivial)⟩
  | err code c3 =>
    rw [hout] at hspec
    dsimp only at hspec
    simp only [mkAssemble]
    refine ⟨fun h0 => ?_, fun _ => ?_⟩
    · rcases hspec with h | h <;> rw [h] at h0 <;> exact absurd h0 (by decide)
    · rcases hspec with h | h
      · exact Or.inl h
      · exact Or.inr (Or.inl h)

/-- Witness for C2: the accepted request line `PUT / HTTP/1.0` + LF lands in
the theorem's success clause (via the left, method-untouched disjunct). -/
theorem claim_C2_witness :
    (http_parse_request_line cexBuf2 { last := 15 }).2.core.method =
        ({ last := 15 } : http_request_t).core.method ∨
      (http_parse_request_line cexBuf2 { last := 15 }).2.core.method = HTTP_GET ∨
      (http_parse_request_line cexBuf2 { last := 15 }).2.core.method = HTTP_HEAD ∨
      (http_parse_request_line cexBuf2 { last := 15 }).2.core.method = HTTP_POST ∨
      (http_parse_request_line cexBuf2 { last := 15 }).2.core.method = HTTP_UNKNOWN :=
  (claim_C2 cexBuf2 { last := 15 } rfl).1 (by decide)

end Sehttpd
